import Mathlib

/-!
Verification of the devem-tech/statsd Go client (client.go, options.go).

The development shallowly embeds the client: byte sequences are `List Char`
(the repository only ever handles ASCII metric text), Go `int`/`int64` are
`Int`, and the two channels of the client are embedded as explicit state
(`flushChan` as the occupancy count of the capacity-1 signal channel,
`quitChan` as a `quitClosed` flag).  Network I/O is represented by the byte
blocks handed to `conn.Write`; the connection itself, the error handler and
wall-clock time stay outside the model (timer ticks become explicit events).

A Go peculiarity matters for faithfulness: `serializeTagsTo(buffer []byte,
tags []Tag)` receives the slice header by value and returns nothing, so the
`append`s inside it rebind only the callee's local variable.  The caller's
slice is unchanged (its length is unchanged, and the bytes written into
spare capacity beyond that length are overwritten by the caller's next
append before they can ever become visible).  The `Slice` model below embeds
Go slice headers precisely enough to establish this, and the client model
carries the consequence: neither the default tags prepared in `New` nor the
per-call tags passed to `send` ever reach the emitted lines.
-/

/-- A key-value pair used for tagging metrics (`Tag` in client.go). -/
structure Tag where
  Key : String
  Value : String
deriving DecidableEq

/-- Go `strings.TrimSuffix`: drops the given suffix if present, else returns
the input unchanged. -/
def trimSuffix (s suf : List Char) : List Char :=
  if suf.isSuffixOf s then s.take (s.length - suf.length) else s

/-- The transformation the `Prefix` option applies in options.go:
`strings.TrimSuffix(prefix, ".") + "."`. -/
def normalizePfx (p : String) : List Char :=
  trimSuffix p.toList ".".toList ++ ".".toList

/-- Go `strconv.FormatInt(v, 10)`: base-10 rendering with a leading minus
sign for negatives; Lean's `toString` on `Int` produces the same digits. -/
def formatInt (v : Int) : String :=
  toString v

/-- Go `time.Duration.Milliseconds()`: the duration (an `int64` count of
nanoseconds) divided by 1e6 with Go's `/`, which truncates toward zero. -/
def durationMs (d : Int) : Int :=
  Int.tdiv d 1000000

/-! ## Go slice headers

A Go slice is a (pointer, length, capacity) header over a backing array.
`Slice` keeps the backing array's contents (its length is the capacity) and
the header's length.  `appendChar` follows Go `append`: when capacity
remains it writes in place at index `len`, otherwise it reallocates.  (Go
grows capacity geometrically; the extra fresh cells hold no observable data
until written, so modelling minimal growth is observationally equivalent —
`visible_appendChar` shows every visible result is independent of the cells
beyond `len`.) -/

/-- A Go slice header over a backing array of characters. -/
structure Slice where
  backing : List Char
  len : Nat
deriving DecidableEq

/-- The elements a Go program can read through the slice header. -/
def Slice.visible (s : Slice) : List Char :=
  s.backing.take s.len

/-- Well-formedness of a slice header: the length never exceeds the
capacity. -/
def Slice.wf (s : Slice) : Prop :=
  s.len ≤ s.backing.length

instance (s : Slice) : Decidable s.wf := by
  unfold Slice.wf; infer_instance

/-- Go `append(s, c)` for a single byte: write in place into spare capacity
when it exists, otherwise reallocate. -/
def appendChar (s : Slice) (c : Char) : Slice :=
  if s.len < s.backing.length then
    ⟨s.backing.set s.len c, s.len + 1⟩
  else
    ⟨s.backing.take s.len ++ [c], s.len + 1⟩

/-- Go `append(s, cs...)`. -/
def appendList (s : Slice) (cs : List Char) : Slice :=
  cs.foldl appendChar s

/-- The body of `serializeTagsTo` in client.go: for each tag, append a
separator byte, the key bytes, an equals byte and the value bytes to the
(callee-local) slice.  The Go function returns nothing, so call sites
discard this result; it is named here so that what the callee computes can
be compared with what its callers observe. -/
def serializeTagsToS (buffer : Slice) (tags : List Tag) : Slice :=
  tags.foldl
    (fun b tag =>
      let b := appendChar b ';'
      let b := appendList b tag.Key.toList
      let b := appendChar b '='
      appendList b tag.Value.toList)
    buffer

/-- Effect of the call `c.serializeTagsTo(buf, tags)` on the caller's slice
`buf`: Go passes the slice header by value and the function has no return
value, so the caller's header is unchanged.  The callee may write into
backing cells at indices at or beyond `buf.len`, but those cells are outside
`buf.visible` and every later `appendChar` by the caller overwrites cell
`len` before extending the visible range (`visible_appendChar`), so the
caller's slice behaves exactly as if untouched. -/
def serializeTagsCall (buf : Slice) (_tags : List Tag) : Slice :=
  buf

/-- The byte sequence the serializer body computes for a tag list. -/
def tagBytes : List Tag → List Char
  | [] => []
  | t :: ts => ';' :: (t.Key.toList ++ '=' :: (t.Value.toList ++ tagBytes ts))

/-! ## The client

`Client` carries the fields of the Go `Client` struct that the model
observes.  `conn`, `bufferLock`, `wg` and `errorHandler` stay outside the
model: the lock only serializes the operations modelled here as atomic
steps, and network writes are represented by the byte blocks the operations
hand over.  `flushChan` is the occupancy of the capacity-1 signal channel,
`quitClosed` records whether `close(quitChan)` has happened, and `done`
records that the background flusher goroutine has returned.  `pfx` embeds
the struct's prefix field. -/

/-- Model state of the Go `Client` struct. -/
structure Client where
  buffer : List Char
  maxBufferSize : Int
  flushChan : Nat
  quitClosed : Bool
  done : Bool
  pfx : List Char
  tags : List Char
deriving DecidableEq

/-- Go `requestFlush` (client.go): a non-blocking try-send on the capacity-1
channel — deposit a signal when the slot is free, otherwise drop the
request. -/
def requestFlush (c : Client) : Client :=
  if c.flushChan < 1 then { c with flushChan := c.flushChan + 1 } else c

/-- The line `send` appends for one metric: prefix, name, a colon, the
value, the client's default-tag block, a pipe, the metric type, and a line
terminator.  The per-call tags are absent: the `c.serializeTagsTo(c.buffer,
tags)` call between the value and the pipe discards its work (see the
`Slice` section), so nothing of them reaches the buffer. -/
def encodedLine (c : Client) (key value mt : String) : List Char :=
  c.pfx ++ key.toList ++ ':' :: value.toList ++ c.tags ++ '|' :: mt.toList ++ ['\n']

/-- Go `send` (client.go): append one encoded metric line to the shared
buffer under the lock, then request an asynchronous flush exactly when the
buffer's length now meets or exceeds `maxBufferSize`.  The returned flag
records whether `requestFlush` was invoked. -/
def send (c : Client) (key value mt : String) (tags : List Tag) : Client × Bool :=
  let b := c.buffer ++ c.pfx
  let b := b ++ key.toList
  let b := b ++ [':']
  let b := b ++ value.toList
  let b := b ++ c.tags
  let _ := serializeTagsCall ⟨b, b.length⟩ tags
  let b := b ++ ['|']
  let b := b ++ mt.toList
  let b := b ++ ['\n']
  let c1 : Client := { c with buffer := b }
  if c1.maxBufferSize ≤ (b.length : Int) then (requestFlush c1, true) else (c1, false)

/-- Go `flushMetrics` (client.go): under the lock, return doing nothing when
the buffer is empty; otherwise capture `buffer[:n-1]` (dropping the single
trailing line terminator), reset the buffer to `buffer[:0]`, and (after
releasing the lock) hand the captured bytes to `conn.Write`.  The second
component is the byte block written to the connection, `none` when no write
happens. -/
def flushMetrics (c : Client) : Client × Option (List Char) :=
  let n := c.buffer.length
  if n = 0 then (c, none)
  else ({ c with buffer := [] }, some (c.buffer.take (n - 1)))

/-- Go `Count` (client.go): a zero delta returns without producing a line;
otherwise send the base-10 value with type code "c". -/
def Count (c : Client) (key : String) (value : Int) (tags : List Tag) :
    Client × Bool :=
  if value = 0 then (c, false)
  else send c key (formatInt value) "c" tags

/-- Go `Increment` (client.go): `Count` with delta 1. -/
def Increment (c : Client) (key : String) (tags : List Tag) : Client × Bool :=
  Count c key 1 tags

/-- Go `Gauge` (client.go) sends `strconv.FormatFloat(value, 'f', -1, 64)`
with type code "g".  The model restricts the `float64` argument to
integer-valued floats of magnitude below 2^53 (which covers every value the
claims evaluate, in particular 0.0): on that range the shortest
round-tripping 'f' rendering is exactly the base-10 integer, with
`FormatFloat(0.0, 'f', -1, 64) = "0"`. -/
def Gauge (c : Client) (key : String) (value : Int) (tags : List Tag) :
    Client × Bool :=
  send c key (formatInt value) "g" tags

/-- Go `Timing` (client.go): sends the duration truncated to whole
milliseconds (toward zero) with type code "ms".  The duration argument is
the `int64` nanosecond count of a `time.Duration`. -/
def Timing (c : Client) (key : String) (d : Int) (tags : List Tag) :
    Client × Bool :=
  send c key (formatInt (durationMs d)) "ms" tags

/-- The resolved configuration (`options` in client.go) after the option
functions ran; `errorHandler` and the connection parameters are outside the
model.  `pfx` embeds the prefix field. -/
structure Options where
  host : String
  port : Int
  maxBufferSize : Int
  flushInterval : Int
  pfx : String
  tags : List Tag
deriving DecidableEq

/-- The defaults `New` starts from: port 8125, maximum buffer size 512,
flush interval 100ms (in nanoseconds), empty prefix, no tags. -/
def defaultOptions : Options :=
  { host := "", port := 8125, maxBufferSize := 512, flushInterval := 100000000,
    pfx := "", tags := [] }

/-- The default-tag block as `New` leaves it: the client field starts as
`make([]byte, 0, o.maxBufferSize)` and `client.serializeTagsTo(client.tags,
o.tags)` passes that header by value, discarding the callee's appends — the
field keeps length zero, so its visible content is empty. -/
def newClientTagsBlock (defaultTags : List Tag) (cap : Nat) : List Char :=
  let t : Slice := ⟨List.replicate cap (Char.ofNat 0), 0⟩
  let t := serializeTagsCall t defaultTags
  t.visible

/-- Go `New` (client.go) after a successful `net.Dial`: empty buffer with
preallocated capacity, empty capacity-1 flush channel, open quit channel,
prefix bytes from the options, and the (empty, see `newClientTagsBlock`)
default-tag block.  `startBackgroundFlusher` is modelled by the event loop
below. -/
def newClient (o : Options) : Client :=
  { buffer := []
    maxBufferSize := o.maxBufferSize
    flushChan := 0
    quitClosed := false
    done := false
    pfx := o.pfx.toList
    tags := newClientTagsBlock o.tags o.maxBufferSize.toNat }

/-! ## The background flusher

The goroutine started by `startBackgroundFlusher` is a select loop over the
ticker, the flush channel and the quit channel.  Its scheduling is made
explicit as a list of `Event`s: which ready channel each `select` chose.
`Event.flushSig` is only deliverable when a signal sits in the flush
channel, `Event.quit` only once `close(quitChan)` has happened
(`validEvent`). -/

/-- One `select` outcome in the background flusher loop. -/
inductive Event where
  | tick
  | flushSig
  | quit
deriving DecidableEq

/-- Which events the respective channels can deliver in a given state. -/
def validEvent (c : Client) (e : Event) : Prop :=
  match e with
  | .tick => True
  | .flushSig => 1 ≤ c.flushChan
  | .quit => c.quitClosed = true

/-- One iteration of the select loop: a ticker fire calls `requestFlush`, a
flush signal is consumed from the channel and `flushMetrics` runs, and the
quit case runs a final `flushMetrics` and returns (recorded by `done`).  The
second component is the byte block written to the connection, if any. -/
def stepEvent (c : Client) (e : Event) : Client × Option (List Char) :=
  match e with
  | .tick => (requestFlush c, none)
  | .flushSig => flushMetrics { c with flushChan := c.flushChan - 1 }
  | .quit =>
      let r := flushMetrics c
      ({ r.1 with done := true }, r.2)

/-- The flusher loop run over a schedule: process events in order, stopping
right after the first `quit` (the goroutine returns out of the loop there).
Returns the final state and the byte blocks written, in order. -/
def runLoop : Client → List Event → Client × List (List Char)
  | c, [] => (c, [])
  | c, e :: es =>
      let r := stepEvent c e
      match e with
      | .quit => (r.1, r.2.toList)
      | _ =>
          let rest := runLoop r.1 es
          (rest.1, r.2.toList ++ rest.2)

/-- Go `Close` (client.go): `close(c.quitChan)` — which panics if the
channel is already closed, modelled by `none` — then `c.wg.Wait()`, i.e.
block until the flusher loop has processed its remaining scheduled events
and taken the quit case.  `es` is the schedule of events the loop still
services between the close signal and its selection of the quit case.  The
result carries the final state and every byte block written before `Close`
returns; the `conn.Close()` error path stays outside the model. -/
def closeClient (c : Client) (es : List Event) :
    Option (Client × List (List Char)) :=
  if c.quitClosed then none
  else some (runLoop { c with quitClosed := true } (es ++ [Event.quit]))

/-- Reachable client states: freshly constructed, or obtained from a
reachable state by a metric send, a valid flusher-loop step, or the close
signal. -/
inductive Reachable : Client → Prop where
  | init (o : Options) : Reachable (newClient o)
  | metricSend (c : Client) (key value mt : String) (tags : List Tag) :
      Reachable c → Reachable (send c key value mt tags).1
  | step (c : Client) (e : Event) :
      Reachable c → validEvent c e → Reachable (stepEvent c e).1
  | closeSignal (c : Client) :
      Reachable c → c.quitClosed = false → Reachable { c with quitClosed := true }

/-- One metric call as seen by `send`: name, pre-rendered value string, type
code and per-call tags. -/
structure Metric where
  key : String
  value : String
  mt : String
  tags : List Tag
deriving DecidableEq

/-- A sequence of metric calls, each handled by `send`; the flag records
whether any of them invoked `requestFlush`. -/
def sendMany : Client → List Metric → Client × Bool
  | c, [] => (c, false)
  | c, m :: ms =>
      let r := send c m.key m.value m.mt m.tags
      let rest := sendMany r.1 ms
      (rest.1, r.2 || rest.2)

/-- Total encoded byte length of a sequence of metric calls (the prefix and
default-tag block are per-client and unchanged by `send`). -/
def totalEncodedLen (c : Client) (ms : List Metric) : Nat :=
  (ms.map fun m => (encodedLine c m.key m.value m.mt).length).sum

/-- Splits a byte sequence into chunks right after each line-terminator
byte; a trailing unterminated chunk (which never occurs in a reachable
buffer) is returned last. -/
def splitNl : List Char → List Char → List (List Char)
  | acc, [] => if acc = [] then [] else [acc.reverse]
  | acc, c :: cs =>
      if c = '\n' then (acc.reverse ++ ['\n']) :: splitNl [] cs
      else splitNl (c :: acc) cs

/-- A concrete client state used to evaluate theorems on explicit inputs. -/
def cEmpty : Client :=
  { buffer := [], maxBufferSize := 512, flushChan := 0, quitClosed := false,
    done := false, pfx := [], tags := [] }

/-- A concrete client state holding one buffered line, used to evaluate
theorems on explicit inputs. -/
def cLine : Client :=
  { cEmpty with buffer := "a:1|c\n".toList }

/-- The configuration of the end-to-end scenario: prefix "app." (as the
`Prefix` option normalizes it) and the single default tag env=prod. -/
def c1Options : Options :=
  { defaultOptions with
      pfx := String.mk (normalizePfx "app."), tags := [⟨"env", "prod"⟩] }

/-! ## Facts about the slice model -/

/-- Setting an index and then taking one element past it splits into the
taken prefix and the new element. -/
theorem take_set_succ (l : List Char) (n : Nat) (a : Char) (h : n < l.length) :
    (l.set n a).take (n + 1) = l.take n ++ [a] := by
  induction l generalizing n with
  | nil => simp at h
  | cons x xs ih =>
    cases n with
    | zero => simp [List.set, List.take]
    | succ m =>
      simp only [List.set, List.take, List.cons_append]
      rw [ih m (by simpa using h)]

/-- Appending preserves slice well-formedness. -/
theorem appendChar_wf (s : Slice) (c : Char) (h : s.wf) : (appendChar s c).wf := by
  unfold appendChar Slice.wf at *
  by_cases hlt : s.len < s.backing.length
  · simp [hlt, List.length_set]; omega
  · simp [hlt]
    have : s.len = s.backing.length := by omega
    simp [this, List.take_length]

/-- The visible content after a one-byte append is the old visible content
followed by the new byte — independently of what the spare-capacity cells
held. -/
theorem visible_appendChar (s : Slice) (c : Char) (h : s.wf) :
    (appendChar s c).visible = s.visible ++ [c] := by
  unfold appendChar Slice.visible Slice.wf at *
  by_cases hlt : s.len < s.backing.length
  · simp only [hlt, if_true]
    exact take_set_succ s.backing s.len c hlt
  · simp only [hlt, if_false]
    have heq : s.len = s.backing.length := by omega
    simp [heq, List.take_length]

/-- Multi-byte appends: well-formedness and visible content. -/
theorem visible_appendList (cs : List Char) (s : Slice) (h : s.wf) :
    (appendList s cs).wf ∧ (appendList s cs).visible = s.visible ++ cs := by
  induction cs generalizing s with
  | nil => exact ⟨h, by simp [appendList]⟩
  | cons c cs ih =>
    have h1 := appendChar_wf s c h
    have h2 := visible_appendChar s c h
    have h3 := ih (appendChar s c) h1
    constructor
    · simpa [appendList] using h3.1
    · have : appendList s (c :: cs) = appendList (appendChar s c) cs := by
        simp [appendList]
      rw [this, h3.2, h2]
      simp

/-- What `serializeTagsTo`'s body computes into its local slice: the old
visible content followed by `tagBytes tags`. -/
theorem visible_serializeTagsToS (tags : List Tag) (s : Slice) (h : s.wf) :
    (serializeTagsToS s tags).wf ∧
      (serializeTagsToS s tags).visible = s.visible ++ tagBytes tags := by
  induction tags generalizing s with
  | nil => exact ⟨h, by simp [serializeTagsToS, tagBytes]⟩
  | cons t ts ih =>
    have step :
        serializeTagsToS s (t :: ts) =
          serializeTagsToS
            (appendList (appendChar (appendList (appendChar s ';') t.Key.toList) '=')
              t.Value.toList) ts := by
      simp [serializeTagsToS]
    have w1 := appendChar_wf s ';' h
    have v1 := visible_appendChar s ';' h
    have w2 := visible_appendList t.Key.toList (appendChar s ';') w1
    have w3 := appendChar_wf _ '=' w2.1
    have v3 := visible_appendChar _ '=' w2.1
    have w4 := visible_appendList t.Value.toList _ w3
    have h5 := ih _ w4.1
    rw [step]
    refine ⟨h5.1, ?_⟩
    rw [h5.2, w4.2, v3, w2.2, v1]
    simp [tagBytes]

/-! ## Basic facts about the operations -/

/-- Unfolding `requestFlush` into a single field update. -/
theorem requestFlush_eq (c : Client) :
    requestFlush c =
      { c with flushChan := if c.flushChan < 1 then c.flushChan + 1 else c.flushChan } := by
  unfold requestFlush
  split <;> simp_all

/-- A `requestFlush` on a client whose signal slot is already occupied is
dropped: the state is unchanged. -/
theorem requestFlush_dropped (c : Client) (h : 1 ≤ c.flushChan) :
    requestFlush c = c := by
  unfold requestFlush
  split
  · omega
  · rfl

/-- Unfolding `send`: the buffer grows by exactly the encoded line, and the
flush request happens exactly when the new length reaches
`maxBufferSize`. -/
theorem send_eq (c : Client) (key value mt : String) (tags : List Tag) :
    send c key value mt tags =
      (if c.maxBufferSize ≤ ((c.buffer ++ encodedLine c key value mt).length : Int)
       then (requestFlush { c with buffer := c.buffer ++ encodedLine c key value mt }, true)
       else ({ c with buffer := c.buffer ++ encodedLine c key value mt }, false)) := by
  unfold send serializeTagsCall encodedLine
  simp [List.append_assoc]

/-- The buffer after `send`. -/
theorem send_buffer (c : Client) (key value mt : String) (tags : List Tag) :
    (send c key value mt tags).1.buffer = c.buffer ++ encodedLine c key value mt := by
  rw [send_eq]
  split <;> simp [requestFlush_eq]

/-- `send` leaves every field other than `buffer` and `flushChan`
unchanged. -/
theorem send_frame (c : Client) (key value mt : String) (tags : List Tag) :
    (send c key value mt tags).1.maxBufferSize = c.maxBufferSize ∧
      (send c key value mt tags).1.pfx = c.pfx ∧
      (send c key value mt tags).1.tags = c.tags ∧
      (send c key value mt tags).1.quitClosed = c.quitClosed ∧
      (send c key value mt tags).1.done = c.done := by
  rw [send_eq]
  split <;> simp [requestFlush_eq]

/-- `flushMetrics` always leaves an empty buffer behind. -/
theorem flushMetrics_buffer (c : Client) : (flushMetrics c).1.buffer = [] := by
  by_cases h : c.buffer.length = 0
  · simp [flushMetrics, h, List.eq_nil_of_length_eq_zero h]
  · simp [flushMetrics, h]

/-- `flushMetrics` leaves every field other than `buffer` unchanged. -/
theorem flushMetrics_frame (c : Client) :
    (flushMetrics c).1.maxBufferSize = c.maxBufferSize ∧
      (flushMetrics c).1.flushChan = c.flushChan ∧
      (flushMetrics c).1.pfx = c.pfx ∧
      (flushMetrics c).1.tags = c.tags ∧
      (flushMetrics c).1.quitClosed = c.quitClosed ∧
      (flushMetrics c).1.done = c.done := by
  by_cases h : c.buffer.length = 0 <;> simp [flushMetrics, h]

/-- On a nonempty buffer, `flushMetrics` writes the buffer minus its last
byte. -/
theorem flushMetrics_write (c : Client) (h : c.buffer ≠ []) :
    flushMetrics c = ({ c with buffer := [] }, some c.buffer.dropLast) := by
  have hn : c.buffer.length ≠ 0 := fun hl => h (List.eq_nil_of_length_eq_zero hl)
  simp [flushMetrics, hn, List.dropLast_eq_take]

/-- A Go duration strictly shorter than one millisecond in magnitude
truncates to zero milliseconds. -/
theorem durationMs_eq_zero (d : Int) (h1 : -1000000 < d) (h2 : d < 1000000) :
    durationMs d = 0 := by
  unfold durationMs
  rcases le_or_lt 0 d with hd | hd
  · exact Int.tdiv_eq_zero_of_lt hd h2
  · have : d = -(-d) := by omega
    rw [this, Int.neg_tdiv, Int.tdiv_eq_zero_of_lt (by omega) (by omega)]
    simp

/-! ## Newline structure of the buffer -/

/-- `splitNl` decomposes its input: joining the chunks restores the
sequence. -/
theorem splitNl_join (b : List Char) (acc : List Char) :
    (splitNl acc b).flatten = acc.reverse ++ b := by
  induction b generalizing acc with
  | nil =>
    by_cases h : acc = [] <;> simp [splitNl, h]
  | cons c cs ih =>
    by_cases h : c = '\n'
    · simp [splitNl, h, ih]
    · simp [splitNl, h, ih]

/-- When the input ends in a line terminator, every chunk `splitNl` produces
is a nonempty line ending in the line terminator. -/
theorem splitNl_chunks (b : List Char) (acc : List Char) (hne : b ≠ [])
    (hlast : b.getLast? = some '\n') :
    ∀ l ∈ splitNl acc b, l ≠ [] ∧ l.getLast? = some '\n' := by
  induction b generalizing acc with
  | nil => exact absurd rfl hne
  | cons c cs ih =>
    intro l hl
    by_cases hcs : cs = []
    · subst hcs
      have hc : c = '\n' := by simpa using hlast
      subst hc
      simp [splitNl] at hl
      subst hl
      simp
    · have hlast' : cs.getLast? = some '\n' := by
        obtain ⟨d, ds, rfl⟩ := List.exists_cons_of_ne_nil hcs
        simpa using hlast
      by_cases h : c = '\n'
      · simp only [splitNl, h, if_true, List.mem_cons] at hl
        rcases hl with hl | hl
        · subst hl; simp
        · exact ih [] hcs hlast' l hl
      · simp only [splitNl, h, if_false] at hl
        exact ih (c :: acc) hcs hlast' l hl

/-! ## The flusher loop -/

/-- `stepEvent` never changes `quitClosed`. -/
theorem stepEvent_quitClosed (c : Client) (e : Event) :
    (stepEvent c e).1.quitClosed = c.quitClosed := by
  cases e with
  | tick => simp [stepEvent, requestFlush_eq]
  | flushSig =>
      simp only [stepEvent]
      rw [(flushMetrics_frame _).2.2.2.2.1]
  | quit =>
      simp only [stepEvent]
      rw [(flushMetrics_frame _).2.2.2.2.1]

/-- `runLoop` never changes `quitClosed`. -/
theorem runLoop_quitClosed (es : List Event) (c : Client) :
    (runLoop c es).1.quitClosed = c.quitClosed := by
  induction es generalizing c with
  | nil => rfl
  | cons e es ih =>
    cases e with
    | tick =>
        simp only [runLoop]
        rw [ih, stepEvent_quitClosed]
    | flushSig =>
        simp only [runLoop]
        rw [ih, stepEvent_quitClosed]
    | quit =>
        simpa only [runLoop] using stepEvent_quitClosed c Event.quit

/-- Running the loop on a quit-free schedule followed by the quit selection:
the loop first services the schedule, then performs one final
`flushMetrics`, records termination, and stops. -/
theorem runLoop_append_quit (es : List Event) (c : Client) (hq : Event.quit ∉ es) :
    runLoop c (es ++ [Event.quit]) =
      ({ (flushMetrics (runLoop c es).1).1 with done := true },
        (runLoop c es).2 ++ ((flushMetrics (runLoop c es).1).2).toList) := by
  induction es generalizing c with
  | nil => simp [runLoop, stepEvent]
  | cons e es ih =>
    have he : e ≠ Event.quit := fun h => hq (h ▸ List.mem_cons_self _ _)
    have hq' : Event.quit ∉ es := fun h => hq (List.mem_cons_of_mem _ h)
    cases e with
    | tick =>
        simp only [List.cons_append, runLoop, List.append_eq]
        rw [ih _ hq']
        simp [List.append_assoc]
    | flushSig =>
        simp only [List.cons_append, runLoop, List.append_eq]
        rw [ih _ hq']
        simp [List.append_assoc]
    | quit => exact absurd rfl he

/-- Once the loop selects the quit case it processes nothing further: any
events still scheduled after the quit selection are ignored. -/
theorem runLoop_stop (es extra : List Event) (c : Client) (hq : Event.quit ∉ es) :
    runLoop c (es ++ Event.quit :: extra) = runLoop c (es ++ [Event.quit]) := by
  induction es generalizing c with
  | nil => simp [runLoop]
  | cons e es ih =>
    have he : e ≠ Event.quit := fun h => hq (h ▸ List.mem_cons_self _ _)
    have hq' : Event.quit ∉ es := fun h => hq (List.mem_cons_of_mem _ h)
    cases e with
    | tick =>
        simp only [List.cons_append, runLoop, List.append_eq]
        rw [ih _ hq']
    | flushSig =>
        simp only [List.cons_append, runLoop, List.append_eq]
        rw [ih _ hq']
    | quit => exact absurd rfl he

/-! ## Reachability invariants -/

/-- A try-send preserves the at-most-one-signal bound. -/
theorem requestFlush_flushChan_le (c : Client) (h : c.flushChan ≤ 1) :
    (requestFlush c).flushChan ≤ 1 := by
  unfold requestFlush
  split <;> [skip; exact h]
  simp
  omega

/-- In every reachable state the capacity-1 flush channel holds at most one
signal. -/
theorem reachable_flushChan_le_one (c : Client) (h : Reachable c) :
    c.flushChan ≤ 1 := by
  induction h with
  | init o => simp [newClient]
  | metricSend c key value mt tags hc ih =>
      rw [send_eq]
      split
      · exact requestFlush_flushChan_le _ (by simpa using ih)
      · simpa using ih
  | step c e hc hv ih =>
      cases e with
      | tick => exact requestFlush_flushChan_le _ ih
      | flushSig =>
          show (flushMetrics { c with flushChan := c.flushChan - 1 }).1.flushChan ≤ 1
          rw [(flushMetrics_frame _).2.1]
          show c.flushChan - 1 ≤ 1
          omega
      | quit =>
          show (flushMetrics c).1.flushChan ≤ 1
          rw [(flushMetrics_frame c).2.1]
          exact ih
  | closeSignal c hc hq ih => simpa using ih

/-- In every reachable state, a nonempty buffer ends in the line-terminator
byte. -/
theorem reachable_buffer_newline (c : Client) (h : Reachable c) :
    c.buffer = [] ∨ c.buffer.getLast? = some '\n' := by
  induction h with
  | init o => left; rfl
  | metricSend c key value mt tags hc ih =>
      right
      rw [send_buffer]
      have hsplit :
          c.buffer ++ encodedLine c key value mt =
            (c.buffer ++ c.pfx ++ key.toList ++ ':' :: value.toList ++ c.tags ++
              '|' :: mt.toList) ++ ['\n'] := by
        simp [encodedLine, List.append_assoc]
      rw [hsplit, List.getLast?_concat]
  | step c e hc hv ih =>
      cases e with
      | tick => simpa [stepEvent, requestFlush_eq] using ih
      | flushSig =>
          left
          simpa only [stepEvent] using flushMetrics_buffer _
      | quit =>
          left
          simpa only [stepEvent] using flushMetrics_buffer _
  | closeSignal c hc hq ih => simpa using ih

/-- No `send` ever requests a flush while the running total stays strictly
below the maximum buffer size. -/
theorem sendMany_no_request (ms : List Metric) (c : Client)
    (h : (c.buffer.length : Int) + totalEncodedLen c ms < c.maxBufferSize) :
    (sendMany c ms).2 = false := by
  induction ms generalizing c with
  | nil => rfl
  | cons m ms ih =>
    have hline :
        (totalEncodedLen c (m :: ms) : Int) =
          ((encodedLine c m.key m.value m.mt).length : Int) + totalEncodedLen c ms := by
      simp [totalEncodedLen]
    have hcond :
        ¬ c.maxBufferSize ≤
            ((c.buffer ++ encodedLine c m.key m.value m.mt).length : Int) := by
      rw [hline] at h
      rw [List.length_append]
      push_cast
      have hnn : (0 : Int) ≤ (totalEncodedLen c ms : Int) := Int.ofNat_nonneg _
      omega
    have hsend :
        send c m.key m.value m.mt m.tags =
          ({ c with buffer := c.buffer ++ encodedLine c m.key m.value m.mt }, false) := by
      rw [send_eq, if_neg hcond]
    simp only [sendMany, hsend, Bool.false_or]
    apply ih
    have htot :
        totalEncodedLen { c with buffer := c.buffer ++ encodedLine c m.key m.value m.mt } ms =
          totalEncodedLen c ms := rfl
    show ((c.buffer ++ encodedLine c m.key m.value m.mt).length : Int) +
        totalEncodedLen { c with buffer := c.buffer ++ encodedLine c m.key m.value m.mt } ms <
        c.maxBufferSize
    rw [htot, List.length_append]
    rw [hline] at h
    push_cast
    omega

/-! ## The claims -/

/-- Claim C1.  The claim states that with prefix "app." and default tag
env=prod, `Increment("signup")` buffers the line `app.signup:1;env=prod|c`
followed by a line terminator, and in general every line carries the
default-tag block and the per-call tags.  Evaluating the embedded code at
exactly this configuration shows the buffered line is `app.signup:1|c` plus
the terminator: the default tags (and any per-call tags) are missing,
because `serializeTagsTo` receives the slice header by value and its
appends never reach the caller. -/
theorem c1_increment_line :
    (Increment (newClient c1Options) "signup" []).1.buffer = "app.signup:1|c\n".toList ∧
      "app.signup:1|c\n".toList ≠ "app.signup:1;env=prod|c\n".toList :=
  ⟨rfl, by decide⟩

/-- Claim C2.  The claim states the tag serializer appends, for each tag in
order, a separator, the key, an equals byte and the value to the destination
buffer, so one tag yields one key=value fragment there.  At the concrete
destination (an empty slice of capacity 8) and the single tag env=prod, the
caller's destination after the call is unchanged — zero bytes appended, zero
fragments instead of one — while the callee's discarded local slice shows
the intended `;env=prod`. -/
theorem c2_serializer_caller_sees_nothing :
    serializeTagsCall ⟨List.replicate 8 (Char.ofNat 0), 0⟩ [⟨"env", "prod"⟩] =
        (⟨List.replicate 8 (Char.ofNat 0), 0⟩ : Slice) ∧
      (serializeTagsCall ⟨List.replicate 8 (Char.ofNat 0), 0⟩ [⟨"env", "prod"⟩]).visible = [] ∧
      (serializeTagsToS ⟨List.replicate 8 (Char.ofNat 0), 0⟩ [⟨"env", "prod"⟩]).visible =
        ";env=prod".toList :=
  ⟨rfl, rfl, by decide⟩

/-- Claim C3: for every client state, draining an empty buffer is a no-op
(no transport write, state unchanged), and draining a nonempty buffer writes
exactly the buffer minus its single trailing line-terminator byte and resets
the buffer to empty. -/
theorem c3_flushMetrics_drain (c : Client) :
    (c.buffer = [] → flushMetrics c = (c, none)) ∧
      (c.buffer ≠ [] →
        flushMetrics c = ({ c with buffer := [] }, some c.buffer.dropLast)) := by
  constructor
  · intro h
    simp [flushMetrics, h]
  · exact flushMetrics_write c

/-- Witness for C3 at concrete inputs: the empty client, and a client with
one buffered line. -/
theorem c3_flushMetrics_drain_w :
    flushMetrics cEmpty = (cEmpty, none) ∧
      flushMetrics cLine = ({ cEmpty with buffer := [] }, some ("a:1|c\n".toList.dropLast)) :=
  ⟨(c3_flushMetrics_drain cEmpty).1 rfl, (c3_flushMetrics_drain cLine).2 (by decide)⟩

/-- Claim C4: the append path requests a flush exactly when the buffer's
length after the append meets or exceeds `maxBufferSize`, and a sequence of
appends whose total encoded length stays below `maxBufferSize` (starting
from an empty buffer) never requests a flush.  (The request itself is the
non-blocking try-send `requestFlush`; see C7 for the drop-when-occupied
fact.) -/
theorem c4_size_trigger (c : Client) (key value mt : String) (tags : List Tag)
    (ms : List Metric) :
    ((send c key value mt tags).2 = true ↔
        c.maxBufferSize ≤ ((send c key value mt tags).1.buffer.length : Int)) ∧
      (c.buffer = [] → (totalEncodedLen c ms : Int) < c.maxBufferSize →
        (sendMany c ms).2 = false) := by
  constructor
  · rw [send_eq]
    split
    · next hc =>
        have hc' : c.maxBufferSize ≤
            (c.buffer.length : Int) + (encodedLine c key value mt).length := by
          rw [List.length_append] at hc
          push_cast at hc
          exact hc
        simp [requestFlush_eq, hc']
    · next hc =>
        have hc' : ¬ c.maxBufferSize ≤
            (c.buffer.length : Int) + (encodedLine c key value mt).length := by
          rw [List.length_append] at hc
          push_cast at hc
          exact hc
        simp [hc']
  · intro h0 hlt
    apply sendMany_no_request
    rw [h0]
    simpa using hlt

/-- Witness for C4.  The iff is evaluated at a client whose buffer already
holds one 6-byte line and whose maximum is 10, so the next 6-byte append
crosses the threshold on the accumulated buffer; the no-request clause is
evaluated at the empty client with a concrete one-metric sequence. -/
theorem c4_size_trigger_w :
    ((send { cLine with maxBufferSize := 10 } "k" "1" "c" []).2 = true ↔
        ({ cLine with maxBufferSize := 10 } : Client).maxBufferSize ≤
          ((send { cLine with maxBufferSize := 10 } "k" "1" "c" []).1.buffer.length : Int)) ∧
      (sendMany cEmpty [⟨"k", "1", "c", []⟩]).2 = false :=
  ⟨(c4_size_trigger { cLine with maxBufferSize := 10 } "k" "1" "c" [] []).1,
    (c4_size_trigger cEmpty "k" "1" "c" [] [⟨"k", "1", "c", []⟩]).2 rfl (by decide)⟩

/-- Claim C5: a zero-delta counter is a no-op — `Count(key, 0, tags...)`
returns the client state unchanged, produces no line, and requests no
flush. -/
theorem c5_count_zero_noop (c : Client) (key : String) (tags : List Tag) :
    Count c key 0 tags = (c, false) :=
  rfl

/-- Claim C6: with the quit channel still open, `Close` signals shutdown and
returns only after the flusher loop has serviced its remaining schedule,
performed exactly one final drain (leaving an empty buffer), and terminated;
when residual data is present the final drain writes it (minus the trailing
terminator), and events scheduled past the quit selection are never
processed. -/
theorem c6_close_final_flush (c : Client) (es extra : List Event)
    (h : c.quitClosed = false) (hq : Event.quit ∉ es) :
    closeClient c es =
        some ({ (flushMetrics (runLoop { c with quitClosed := true } es).1).1 with done := true },
          (runLoop { c with quitClosed := true } es).2 ++
            ((flushMetrics (runLoop { c with quitClosed := true } es).1).2).toList) ∧
      ((flushMetrics (runLoop { c with quitClosed := true } es).1).1).buffer = [] ∧
      ((runLoop { c with quitClosed := true } es).1.buffer ≠ [] →
        (flushMetrics (runLoop { c with quitClosed := true } es).1).2 =
          some ((runLoop { c with quitClosed := true } es).1.buffer.dropLast)) ∧
      runLoop { c with quitClosed := true } (es ++ Event.quit :: extra) =
        runLoop { c with quitClosed := true } (es ++ [Event.quit]) := by
  refine ⟨?_, flushMetrics_buffer _, ?_, runLoop_stop es extra _ hq⟩
  · unfold closeClient
    rw [if_neg (by simp [h]), runLoop_append_quit es _ hq]
  · intro hne
    rw [flushMetrics_write _ hne]

/-- Witness for C6: closing a client that still holds one buffered line,
with an empty remaining schedule and one event pending past the quit. -/
theorem c6_close_final_flush_w :
    closeClient cLine [] =
        some ({ (flushMetrics (runLoop { cLine with quitClosed := true } []).1).1 with done := true },
          (runLoop { cLine with quitClosed := true } []).2 ++
            ((flushMetrics (runLoop { cLine with quitClosed := true } []).1).2).toList) ∧
      ((flushMetrics (runLoop { cLine with quitClosed := true } []).1).1).buffer = [] ∧
      ((runLoop { cLine with quitClosed := true } []).1.buffer ≠ [] →
        (flushMetrics (runLoop { cLine with quitClosed := true } []).1).2 =
          some ((runLoop { cLine with quitClosed := true } []).1.buffer.dropLast)) ∧
      runLoop { cLine with quitClosed := true } ([] ++ Event.quit :: [Event.tick]) =
        runLoop { cLine with quitClosed := true } ([] ++ [Event.quit]) :=
  c6_close_final_flush cLine [] [Event.tick] rfl (by decide)

/-- Claim C7: in every reachable client state the single-slot flush channel
holds at most one pending signal, and a flush request made while the slot is
occupied is dropped without blocking the caller. -/
theorem c7_flush_channel_invariant (c c2 : Client) (h : Reachable c)
    (h2 : 1 ≤ c2.flushChan) :
    c.flushChan ≤ 1 ∧ requestFlush c2 = c2 :=
  ⟨reachable_flushChan_le_one c h, requestFlush_dropped c2 h2⟩

/-- Witness for C7: a freshly constructed client, and a client whose signal
slot is occupied. -/
theorem c7_flush_channel_invariant_w :
    (newClient defaultOptions).flushChan ≤ 1 ∧
      requestFlush { cEmpty with flushChan := 1 } = { cEmpty with flushChan := 1 } :=
  c7_flush_channel_invariant (newClient defaultOptions) { cEmpty with flushChan := 1 }
    (Reachable.init defaultOptions) (by decide)

/-- Claim C8: after a first `Close` has signalled shutdown, a second `Close`
fails fast — `close(quitChan)` on the already-closed channel panics
(modelled by `none`) rather than silently succeeding or blocking. -/
theorem c8_close_twice_panics (c c1 : Client) (es es2 : List Event)
    (ws : List (List Char)) (h : c.quitClosed = false)
    (hr : closeClient c es = some (c1, ws)) :
    closeClient c1 es2 = none := by
  unfold closeClient at hr
  rw [if_neg (by simp [h])] at hr
  have heq := Option.some.inj hr
  have hc1 : c1.quitClosed = true := by
    have h2 := runLoop_quitClosed (es ++ [Event.quit]) { c with quitClosed := true }
    rw [heq] at h2
    simpa using h2
  unfold closeClient
  rw [if_pos hc1]

/-- Witness for C8: the empty client is closed once, and the resulting state
is closed again. -/
theorem c8_close_twice_panics_w :
    closeClient { cEmpty with quitClosed := true, done := true } [] = none :=
  c8_close_twice_panics cEmpty { cEmpty with quitClosed := true, done := true } [] [] [] rfl rfl

/-- Claim C9: in every reachable state a nonempty buffer is a concatenation
of complete lines, each nonempty and ending in the line-terminator byte; in
particular its last byte is the line terminator, which is what makes the
drain step's removal of one trailing byte remove exactly the final
terminator. -/
theorem c9_buffer_lines (c : Client) (h : Reachable c) (hne : c.buffer ≠ []) :
    c.buffer.getLast? = some '\n' ∧
      c.buffer = (splitNl [] c.buffer).flatten ∧
      ∀ l ∈ splitNl [] c.buffer, l ≠ [] ∧ l.getLast? = some '\n' := by
  have hlast := (reachable_buffer_newline c h).resolve_left hne
  refine ⟨hlast, ?_, splitNl_chunks c.buffer [] hne hlast⟩
  have hj := splitNl_join c.buffer []
  simpa using hj.symm

/-- Witness for C9: the state reached by one send on a fresh client. -/
theorem c9_buffer_lines_w :
    (send (newClient defaultOptions) "k" "1" "c" []).1.buffer.getLast? = some '\n' ∧
      (send (newClient defaultOptions) "k" "1" "c" []).1.buffer =
        (splitNl [] (send (newClient defaultOptions) "k" "1" "c" []).1.buffer).flatten ∧
      ∀ l ∈ splitNl [] (send (newClient defaultOptions) "k" "1" "c" []).1.buffer,
        l ≠ [] ∧ l.getLast? = some '\n' :=
  c9_buffer_lines _ (Reachable.metricSend _ "k" "1" "c" [] (Reachable.init defaultOptions))
    (by decide)

/-- Claim C10: the zero-value skip applies only to counters — `Gauge(key,
0.0)` appends a line with value "0", `Timing(key, d)` for any duration of
magnitude under one millisecond appends a line with value "0" (the duration
truncates toward zero to whole milliseconds), while `Count(key, 0)` is
skipped. -/
theorem c10_zero_skip_only_counters (c : Client) (key : String) (tags : List Tag)
    (d : Int) (h1 : -1000000 < d) (h2 : d < 1000000) :
    (Gauge c key 0 tags).1.buffer = c.buffer ++ encodedLine c key "0" "g" ∧
      (Timing c key d tags).1.buffer = c.buffer ++ encodedLine c key "0" "ms" ∧
      Count c key 0 tags = (c, false) := by
  have h0 : formatInt 0 = "0" := rfl
  refine ⟨?_, ?_, rfl⟩
  · show (send c key (formatInt 0) "g" tags).1.buffer = _
    rw [send_buffer, h0]
  · show (send c key (formatInt (durationMs d)) "ms" tags).1.buffer = _
    rw [durationMs_eq_zero d h1 h2, send_buffer, h0]

/-- Witness for C10 at the empty client with a duration one nanosecond under
a millisecond. -/
theorem c10_zero_skip_only_counters_w :
    (Gauge cEmpty "k" 0 []).1.buffer = cEmpty.buffer ++ encodedLine cEmpty "k" "0" "g" ∧
      (Timing cEmpty "k" 999999 []).1.buffer = cEmpty.buffer ++ encodedLine cEmpty "k" "0" "ms" ∧
      Count cEmpty "k" 0 [] = (cEmpty, false) :=
  c10_zero_skip_only_counters cEmpty "k" [] 999999 (by decide) (by decide)
